import Mathlib

/-!
Verification development for the WesmartAI evidence-notarization service
(`app.py`).  The integrity core of the program is modelled here as a shallow
embedding: bytes are `Nat` values below 256, the SHA-256 hash is implemented
as an executable function on byte lists, the Flask session is an explicit
`Session` record, and the three route handlers `upload_file`, `analyze_file`
and `create_report` are pure functions on that state (with the run-specific
entropy — uuid strings and timestamps — passed in as explicit arguments).
-/

set_option maxRecDepth 4000
set_option maxHeartbeats 2000000

namespace App

/-! ## SHA-256 (the `hashlib.sha256` function used by the program) -/

/-- Truncate to a 32-bit word. -/
def w32 (n : Nat) : Nat := n % 4294967296

/-- Rotate the 32-bit word `x` right by `n` positions. -/
def rotr32 (n x : Nat) : Nat := w32 ((x >>> n) ||| (x <<< (32 - n)))

def shaCh (x y z : Nat) : Nat := (x &&& y) ^^^ ((x ^^^ 4294967295) &&& z)

def shaMaj (x y z : Nat) : Nat := (x &&& y) ^^^ (x &&& z) ^^^ (y &&& z)

def bsig0 (x : Nat) : Nat := rotr32 2 x ^^^ rotr32 13 x ^^^ rotr32 22 x

def bsig1 (x : Nat) : Nat := rotr32 6 x ^^^ rotr32 11 x ^^^ rotr32 25 x

def ssig0 (x : Nat) : Nat := rotr32 7 x ^^^ rotr32 18 x ^^^ (x >>> 3)

def ssig1 (x : Nat) : Nat := rotr32 17 x ^^^ rotr32 19 x ^^^ (x >>> 10)

/-- Initial SHA-256 hash state (FIPS 180-4, in decimal). -/
def shaH0 : List Nat :=
  [1779033703, 3144134277, 1013904242, 2773480762,
   1359893119, 2600822924, 528734635, 1541459225]

/-- The 64 SHA-256 round constants (FIPS 180-4, in decimal). -/
def shaK : List Nat :=
  [1116352408, 1899447441, 3049323471, 3921009573, 961987163, 1508970993,
   2453635748, 2870763221, 3624381080, 310598401, 607225278, 1426881987,
   1925078388, 2162078206, 2614888103, 3248222580, 3835390401, 4022224774,
   264347078, 604807628, 770255983, 1249150122, 1555081692, 1996064986,
   2554220882, 2821834349, 2952996808, 3210313671, 3336571891, 3584528711,
   113926993, 338241895, 666307205, 773529912, 1294757372, 1396182291,
   1695183700, 1986661051, 2177026350, 2456956037, 2730485921, 2820302411,
   3259730800, 3345764771, 3516065817, 3600352804, 4094571909, 275423344,
   430227734, 506948616, 659060556, 883997877, 958139571, 1322822218,
   1537002063, 1747873779, 1955562222, 2024104815, 2227730452, 2361852424,
   2428436474, 2756734187, 3204031479, 3329325298]

/-- Big-endian bytes of `n`, `w` bytes wide. -/
def beBytes : Nat → Nat → List Nat
  | 0, _ => []
  | w + 1, n => (n >>> (8 * w)) % 256 :: beBytes w n

/-- SHA-256 padding: append `0x80`, zeros, and the 64-bit big-endian bit
length so the total length is a multiple of 64 bytes. -/
def shaPad (msg : List Nat) : List Nat :=
  msg ++ 0x80 :: List.replicate ((119 - msg.length % 64) % 64) 0 ++ beBytes 8 (8 * msg.length)

/-- Big-endian 32-bit words from a byte list (length a multiple of 4). -/
def bytesToWords : List Nat → List Nat
  | b0 :: b1 :: b2 :: b3 :: rest =>
      ((b0 <<< 24) ||| (b1 <<< 16) ||| (b2 <<< 8) ||| b3) :: bytesToWords rest
  | _ => []

/-- Split a word list into 16-word blocks (fuel-driven so it reduces). -/
def toBlocksAux : Nat → List Nat → List (List Nat)
  | 0, _ => []
  | _ + 1, [] => []
  | fuel + 1, ws => ws.take 16 :: toBlocksAux fuel (ws.drop 16)

def toBlocks (ws : List Nat) : List (List Nat) := toBlocksAux ws.length ws

/-- Extend the 16-word message schedule by `n` further words. -/
def extendSchedule : Nat → List Nat → List Nat
  | 0, ws => ws
  | n + 1, ws =>
      let i := ws.length
      let nw := w32 (ssig1 (ws.getD (i - 2) 0) + ws.getD (i - 7) 0 +
                     ssig0 (ws.getD (i - 15) 0) + ws.getD (i - 16) 0)
      extendSchedule n (ws ++ [nw])

/-- The eight working variables of the compression loop. -/
structure ShaState where
  a : Nat
  b : Nat
  c : Nat
  d : Nat
  e : Nat
  f : Nat
  g : Nat
  h : Nat
deriving Repr, DecidableEq

/-- One SHA-256 round, consuming a constant/schedule-word pair. -/
def shaRound (s : ShaState) (kw : Nat × Nat) : ShaState :=
  let t1 := w32 (s.h + bsig1 s.e + shaCh s.e s.f s.g + kw.1 + kw.2)
  let t2 := w32 (bsig0 s.a + shaMaj s.a s.b s.c)
  ⟨w32 (t1 + t2), s.a, s.b, s.c, w32 (s.d + t1), s.e, s.f, s.g⟩

/-- Compress one 16-word block into the running hash value. -/
def shaCompress (hs : List Nat) (block : List Nat) : List Nat :=
  let ws := extendSchedule 48 block
  let s0 : ShaState := ⟨hs.getD 0 0, hs.getD 1 0, hs.getD 2 0, hs.getD 3 0,
                        hs.getD 4 0, hs.getD 5 0, hs.getD 6 0, hs.getD 7 0⟩
  let s := (shaK.zip ws).foldl shaRound s0
  [w32 (hs.getD 0 0 + s.a), w32 (hs.getD 1 0 + s.b), w32 (hs.getD 2 0 + s.c),
   w32 (hs.getD 3 0 + s.d), w32 (hs.getD 4 0 + s.e), w32 (hs.getD 5 0 + s.f),
   w32 (hs.getD 6 0 + s.g), w32 (hs.getD 7 0 + s.h)]

/-- SHA-256 of a byte list, as the eight 32-bit hash words. -/
def sha256words (msg : List Nat) : List Nat :=
  (toBlocks (bytesToWords (shaPad msg))).foldl shaCompress shaH0

/-- Lowercase hex digit. -/
def hexNibble (n : Nat) : Char :=
  if n < 10 then Char.ofNat (48 + n) else Char.ofNat (87 + n)

/-- Eight lowercase hex digits of a 32-bit word. -/
def wordHex (w : Nat) : String :=
  String.mk [hexNibble ((w >>> 28) &&& 15), hexNibble ((w >>> 24) &&& 15),
             hexNibble ((w >>> 20) &&& 15), hexNibble ((w >>> 16) &&& 15),
             hexNibble ((w >>> 12) &&& 15), hexNibble ((w >>> 8) &&& 15),
             hexNibble ((w >>> 4) &&& 15), hexNibble (w &&& 15)]

/-- Hex digest as `hashlib.sha256(msg).hexdigest()`: 64 lowercase hex digits. -/
def sha256hex (msg : List Nat) : String :=
  String.join ((sha256words msg).map wordHex)

/-- UTF-8 encoding of one character. -/
def utf8Char (c : Char) : List Nat :=
  let n := c.toNat
  if n < 128 then [n]
  else if n < 2048 then [192 ||| (n >>> 6), 128 ||| (n &&& 63)]
  else if n < 65536 then
    [224 ||| (n >>> 12), 128 ||| ((n >>> 6) &&& 63), 128 ||| (n &&& 63)]
  else
    [240 ||| (n >>> 18), 128 ||| ((n >>> 12) &&& 63),
     128 ||| ((n >>> 6) &&& 63), 128 ||| (n &&& 63)]

/-- UTF-8 byte encoding of a string, as Python `s.encode(utf-8)`. -/
def strUtf8 (s : String) : List Nat := (s.data.map utf8Char).flatten

/-! ## `sha256_file`: the chunked hashing helper of `app.py`

`sha256_file` reads the stored file in 4096-byte blocks
(`iter(lambda: f.read(4096), b"")`) and feeds each block to the hash
object's `update`; per the `hashlib` contract, the object's state is the
byte stream absorbed so far and `hexdigest` hashes that stream. -/

/-- The 4096-byte read chunks of a byte stream (fuel-driven). -/
def chunksAux : Nat → List Nat → List (List Nat)
  | 0, _ => []
  | _ + 1, [] => []
  | fuel + 1, l => l.take 4096 :: chunksAux fuel (l.drop 4096)

def readChunks (content : List Nat) : List (List Nat) := chunksAux content.length content

/-- Absorption of one block by `sha256_hash.update(byte_block)`: the hash
object state is the byte stream absorbed so far. -/
def hashUpdate (absorbed block : List Nat) : List Nat := absorbed ++ block

/-- The helper `sha256_file(filepath)`, applied to the byte content of the
file at `filepath`. -/
def sha256_file (content : List Nat) : String :=
  sha256hex ((readChunks content).foldl hashUpdate [])

/-! ## Canonical JSON serialization

`create_report` serializes the proof record with
`json.dumps(proof_data, sort_keys=True, ensure_ascii=False)`: keys in
sorted order, item separator `", "`, key separator `": "`, and non-ASCII
characters passed through unescaped. -/

/-- Python `json` string escaping for one character (`ensure_ascii=False`):
only the backslash, the double quote and control characters are escaped. -/
def escChar (c : Char) : String :=
  if c = '"' then "\\\""
  else if c = '\\' then "\\\\"
  else if c = Char.ofNat 8 then "\\b"
  else if c = Char.ofNat 9 then "\\t"
  else if c = Char.ofNat 10 then "\\n"
  else if c = Char.ofNat 12 then "\\f"
  else if c = Char.ofNat 13 then "\\r"
  else if c.toNat < 32 then
    "\\u00" ++ String.mk [hexNibble (c.toNat / 16), hexNibble (c.toNat % 16)]
  else String.mk [c]

/-- JSON string literal: quoted, escaped. -/
def jsonStr (s : String) : String := "\"" ++ String.join (s.data.map escChar) ++ "\""

/-- Decimal digit characters of a natural number (fuel-driven). -/
def natDigits : Nat → Nat → List Char
  | 0, _ => []
  | fuel + 1, n =>
      if n < 10 then [Char.ofNat (48 + n)]
      else natDigits fuel (n / 10) ++ [Char.ofNat (48 + n % 10)]

/-- Decimal rendering of a natural number, as `json.dumps` prints an `int`. -/
def natToStr (n : Nat) : String := String.mk (natDigits (n + 1) n)

/-- JSON array elements joined by `", "` (the `json.dumps` item separator). -/
def joinComma : List String → String
  | [] => ""
  | [x] => x
  | x :: y :: rest => x ++ ", " ++ joinComma (y :: rest)

/-- One entry of a file's `pages` list, as built by `upload_file`. -/
structure PageData where
  page_num : Nat
  preview_filename : String
  sha256_hash : String
deriving Repr, DecidableEq

/-- Sorted-key JSON of a page record
(keys `page_num` < `preview_filename` < `sha256_hash`). -/
def pageJson (p : PageData) : String :=
  "\x7b\"page_num\": " ++ natToStr p.page_num ++
  ", \"preview_filename\": " ++ jsonStr p.preview_filename ++
  ", \"sha256_hash\": " ++ jsonStr p.sha256_hash ++ "\x7d"

/-- The `file_info` dict built by `upload_file`; `analysis` is the key that
`analyze_file` may add later (absent on upload). -/
structure FileInfo where
  original_filename : String
  stored_filename : String
  sha256_hash : String
  timestamp_utc : String
  pages : List PageData
  analysis : Option String := none
deriving Repr, DecidableEq

/-- Sorted-key JSON of a `file_info` dict.  When present, `analysis` sorts
first (`analysis` < `original_filename` < `pages` < `sha256_hash` <
`stored_filename` < `timestamp_utc`). -/
def fileJson (f : FileInfo) : String :=
  "\x7b" ++
  (match f.analysis with
   | some a => "\"analysis\": " ++ jsonStr a ++ ", "
   | none => "") ++
  "\"original_filename\": " ++ jsonStr f.original_filename ++
  ", \"pages\": [" ++ joinComma (f.pages.map pageJson) ++ "]" ++
  ", \"sha256_hash\": " ++ jsonStr f.sha256_hash ++
  ", \"stored_filename\": " ++ jsonStr f.stored_filename ++
  ", \"timestamp_utc\": " ++ jsonStr f.timestamp_utc ++ "\x7d"

/-- The `proof_data` dict of `create_report` as it stands when it is
serialized and hashed — before the `report_main_hash` key is added. -/
structure ProofData where
  report_id : String
  applicant_name : String
  report_timestamp_utc : String
  files : List FileInfo
deriving Repr, DecidableEq

/-- Sorted-key JSON of `proof_data` (keys `applicant_name` < `files` <
`report_id` < `report_timestamp_utc`; `report_main_hash` is not yet a key). -/
def proofJson (d : ProofData) : String :=
  "\x7b\"applicant_name\": " ++ jsonStr d.applicant_name ++
  ", \"files\": [" ++ joinComma (d.files.map fileJson) ++ "]" ++
  ", \"report_id\": " ++ jsonStr d.report_id ++
  ", \"report_timestamp_utc\": " ++ jsonStr d.report_timestamp_utc ++ "\x7d"

/-- Hex digit value, the inverse of `hexNibble` below 16.  Used only by the
decoder below to reason about the escaping; not part of the program model. -/
def unhex (c : Char) : Nat := if 97 ≤ c.toNat then c.toNat - 87 else c.toNat - 48

/-- Inverse of the short escapes.  Used only by the decoder below. -/
def unescShort (d : Char) : Char :=
  if d = 'b' then Char.ofNat 8
  else if d = 't' then Char.ofNat 9
  else if d = 'n' then Char.ofNat 10
  else if d = 'f' then Char.ofNat 12
  else if d = 'r' then Char.ofNat 13
  else d

/-- Decoder for the JSON escaping: reads back the first escaped character
and the remaining byte-characters.  Proof device used to establish that
the escaping is injective (uniquely decodable); not part of the program
model. -/
def decodeFirst : List Char → Option (Char × List Char)
  | '\\' :: 'u' :: '0' :: '0' :: h1 :: h2 :: r =>
      some (Char.ofNat (unhex h1 * 16 + unhex h2), r)
  | '\\' :: d :: r => some (unescShort d, r)
  | c :: r => some (c, r)
  | [] => none

/-! ## `os.path.splitext` (posix) -/

/-- Index of the last occurrence of `c`, scanning with an accumulator. -/
def lastIdxAux (c : Char) : List Char → Nat → Option Nat → Option Nat
  | [], _, acc => acc
  | x :: xs, i, acc => lastIdxAux c xs (i + 1) (if x = c then some i else acc)

def lastIdx (l : List Char) (c : Char) : Option Nat := lastIdxAux c l 0 none

/-- The extension part of `os.path.splitext(p)`: the suffix from the last
dot, provided that dot lies after the last path separator and the
basename does not consist solely of leading dots up to it. -/
def splitextExt (p : String) : String :=
  let l := p.data
  match lastIdx l '.' with
  | none => ""
  | some di =>
    let ok := match lastIdx l '/' with
      | none => true
      | some si => decide (si < di)
    let fi := match lastIdx l '/' with
      | none => 0
      | some si => si + 1
    if ok && ((l.drop fi).take (di - fi)).any (fun c => !(c = '.')) then
      String.mk (l.drop di)
    else ""

/-- Lowercasing for the extension comparison `file_ext.lower() == .pdf`. -/
def strLower (s : String) : String := String.mk (s.data.map Char.toLower)

/-! ## The Flask session and the route handlers

The session keys the handlers use are `uploaded_files` and
`applicant_name`; run-specific entropy (the `uuid.uuid4()` strings and the
`datetime.now` timestamps) enters as explicit arguments. -/

/-- The per-session mutable state: `session['uploaded_files']` (absent key
modelled as `[]`, as `session.get('uploaded_files', [])` reads it) and
`session.get('applicant_name')` (`none` when the key is absent). -/
structure Session where
  uploaded_files : List FileInfo := []
  applicant_name : Option String := none
deriving Repr, DecidableEq

/-- Python truthiness of `session.get('applicant_name')`:
`None` and the empty string are falsy. -/
def pyTruthyOpt : Option String → Bool
  | none => false
  | some s => s != ""

/-- The `pages_data` list built by the `.pdf` branch of `upload_file`:
page `n` (1-based) gets preview name `f"{file_uuid}_page_{n}.jpg"` and the
SHA-256 of the rendered page image bytes. -/
def buildPages (file_uuid : String) : Nat → List (List Nat) → List PageData
  | _, [] => []
  | i, b :: rest =>
      ⟨i + 1, file_uuid ++ "_page_" ++ natToStr (i + 1) ++ ".jpg", sha256_file b⟩ ::
      buildPages file_uuid (i + 1) rest

/-- The `/upload` handler.  `formApplicant` is
`request.form.get('applicant_name')` (`none` when the field is absent, in
which case the code defaults it to `'N/A'`); `origFilename` is
`file.filename`; `file_uuid` and `ts` stand for the `uuid.uuid4()` value
and the capture timestamp of this request; `fileBytes` is the uploaded
content and `renderedPages` the page images the PDF renderer produces when
the extension is `.pdf`.  Returns `none` on the empty-filename 400 error
(the session is unchanged in that case), otherwise the updated session and
the appended `file_info`. -/
def upload_file (sess : Session) (formApplicant : Option String)
    (origFilename file_uuid ts : String) (fileBytes : List Nat)
    (renderedPages : List (List Nat)) : Option (Session × FileInfo) :=
  if origFilename = "" then none
  else
    let applicant_name := formApplicant.getD "N/A"
    let sess1 :=
      if !pyTruthyOpt sess.applicant_name && applicant_name != "" then
        { sess with applicant_name := some applicant_name }
      else sess
    let file_ext := splitextExt origFilename
    let stored_filename := file_uuid ++ file_ext
    let file_hash := sha256_file fileBytes
    let pages_data :=
      if strLower file_ext = ".pdf" then buildPages file_uuid 0 renderedPages else []
    let file_info : FileInfo :=
      ⟨origFilename, stored_filename, file_hash, ts, pages_data, none⟩
    some ({ sess1 with uploaded_files := sess1.uploaded_files ++ [file_info] }, file_info)

/-- The in-place loop of `analyze_file`: set `analysis` on the first
`file_info` whose `stored_filename` matches, then `break`. -/
def setAnalysis : List FileInfo → String → String → List FileInfo
  | [], _, _ => []
  | f :: rest, sn, a =>
      if f.stored_filename = sn then { f with analysis := some a } :: rest
      else f :: setAnalysis rest sn a

/-- The `/analyze_file` handler.  `result` is the outcome of the external
enrichment call: `some text` when the model call succeeded, `none` for the
failure paths (missing file, unsupported extension, read error, API
error), all of which return before the session is rewritten. -/
def analyze_file (sess : Session) (stored_filename : String)
    (result : Option String) : Session :=
  match result with
  | none => sess
  | some text =>
      { sess with uploaded_files := setAnalysis sess.uploaded_files stored_filename text }

/-- The finalized report: `proof_data` as hashed, plus the
`report_main_hash` key added after hashing. -/
structure Report where
  proof : ProofData
  report_main_hash : String
deriving Repr, DecidableEq

/-- The `/create_report` handler.  `report_id` and `report_ts` stand for
this run's `uuid.uuid4()` and `datetime.now(timezone.utc).isoformat()`.
Returns `none` on the empty-session 400 error; otherwise the report and
the session after `session.pop('uploaded_files')` /
`session.pop('applicant_name')`. -/
def create_report (sess : Session) (report_id report_ts : String) :
    Option (Report × Session) :=
  if sess.uploaded_files.isEmpty then none
  else
    let proof_data : ProofData :=
      ⟨report_id, sess.applicant_name.getD "N/A", report_ts, sess.uploaded_files⟩
    let main_hash := sha256hex (strUtf8 (proofJson proof_data))
    some (⟨proof_data, main_hash⟩, ⟨[], none⟩)

/-! ## Upload sequences

The front end performs one `/upload` POST per artifact; a whole session is
a list of such requests followed by one `/create_report` POST. -/

/-- The data of one `/upload` request: the form fields, this request's
`uuid.uuid4()` value and capture timestamp, the uploaded bytes, and the
page images rendered for a PDF. -/
structure UploadReq where
  formApplicant : Option String
  origFilename : String
  file_uuid : String
  ts : String
  fileBytes : List Nat
  renderedPages : List (List Nat)
deriving Repr, DecidableEq

/-- Session evolution under one `/upload` request: an error response leaves
the session unchanged. -/
def applyUpload (sess : Session) (u : UploadReq) : Session :=
  match upload_file sess u.formApplicant u.origFilename u.file_uuid u.ts
      u.fileBytes u.renderedPages with
  | none => sess
  | some (s2, _) => s2

/-- Session after a sequence of `/upload` requests. -/
def runUploads : Session → List UploadReq → Session := List.foldl applyUpload

/-- Root digest produced by a whole run: the uploads in order, then
`create_report` with this run's report uuid and timestamp. -/
def runReport (reqs : List UploadReq) (report_id report_ts : String) : Option String :=
  (create_report (runUploads {} reqs) report_id report_ts).map
    (fun r => r.1.report_main_hash)

/-- Upload request for `"a.txt"` containing `b"hello"` (uuid `u1`, time `T1`). -/
def reqA : UploadReq := ⟨some "Alice", "a.txt", "u1", "T1", strUtf8 "hello", []⟩

/-- Upload request for `"b.txt"` containing `b"world"` (uuid `u2`, time `T2`). -/
def reqB : UploadReq := ⟨some "Alice", "b.txt", "u2", "T2", strUtf8 "world", []⟩

/-! ## Theorems -/

/-- Folding the chunked reads through `update` absorbs exactly the whole
byte stream, in order. -/
theorem foldl_hashUpdate_chunksAux (fuel : Nat) :
    ∀ l acc : List Nat, l.length ≤ fuel →
      (chunksAux fuel l).foldl hashUpdate acc = acc ++ l := by
  induction fuel with
  | zero =>
      intro l acc h
      have hl : l = [] := List.eq_nil_of_length_eq_zero (Nat.le_zero.mp h)
      subst hl
      simp [chunksAux]
  | succ n ih =>
      intro l acc h
      cases l with
      | nil => simp [chunksAux]
      | cons x xs =>
          have hstep : chunksAux (n + 1) (x :: xs) =
              (x :: xs).take 4096 :: chunksAux n ((x :: xs).drop 4096) := rfl
          rw [hstep, List.foldl_cons,
              ih _ _ (by simp only [List.length_drop, List.length_cons] at h ⊢; omega)]
          rw [hashUpdate, List.append_assoc, List.take_append_drop]

/-- C9: streaming/one-shot hash equivalence — the chunked implementation
`sha256_file`, which folds the content in 4096-byte blocks through the
hash object, returns exactly the digest of the one-shot reference
`hashlib.sha256(whole_content).hexdigest()`. -/
theorem sha256_file_eq_oneshot (content : List Nat) :
    sha256_file content = sha256hex content := by
  unfold sha256_file readChunks
  rw [foldl_hashUpdate_chunksAux content.length content [] (Nat.le_refl _),
      List.nil_append]

/-- C8: hashing a zero-length byte stream succeeds and returns the
well-known SHA-256 empty-input digest. -/
theorem sha256_file_empty_input :
    sha256_file [] =
      "e3b0c44298fc1c149afbf4c8996fb92427ae41e4649b934ca495991b7852b855" := by
  decide

/-- C4: the root digest is the SHA-256 of the UTF-8, sorted-key JSON
serialization of the record with exactly the keys `report_id`,
`applicant_name`, `report_timestamp_utc` and `files`, as it stands before
`report_main_hash` is added (the `ProofData` record has no root-digest
field, so the digest hashes the ledger excluding itself). -/
theorem report_main_hash_canonical (sess : Session) (report_id report_ts : String)
    (hne : sess.uploaded_files ≠ []) :
    (create_report sess report_id report_ts).map (fun r => r.1.report_main_hash) =
      some (sha256hex (strUtf8 (proofJson
        ⟨report_id, sess.applicant_name.getD "N/A", report_ts, sess.uploaded_files⟩))) ∧
    (create_report sess report_id report_ts).map (fun r => r.1.proof) =
      some ⟨report_id, sess.applicant_name.getD "N/A", report_ts, sess.uploaded_files⟩ := by
  have he : sess.uploaded_files.isEmpty = false := by
    cases hl : sess.uploaded_files with
    | nil => exact absurd hl hne
    | cons a l => rfl
  constructor <;> simp [create_report, he]

/-- Witness for C4 at a concrete one-file session. -/
theorem report_main_hash_canonical_witness :
    (create_report ⟨[⟨"a.txt", "u1.txt", "h1", "T1", [], none⟩], some "Alice"⟩
        "R1" "T3").map (fun r => r.1.report_main_hash) =
      some (sha256hex (strUtf8 (proofJson ⟨"R1", "Alice", "T3",
        [⟨"a.txt", "u1.txt", "h1", "T1", [], none⟩]⟩))) :=
  (report_main_hash_canonical
    ⟨[⟨"a.txt", "u1.txt", "h1", "T1", [], none⟩], some "Alice"⟩
    "R1" "T3" (by decide)).1

/-- C1 (amended): the root digest is a deterministic function of exactly
the hashed inputs — the stored file list (with its uuid-derived stored
names and capture timestamps), the applicant label, the report uuid and
the report timestamp.  Two sessions agreeing on those produce the same
`report_main_hash`; no other state enters the digest. -/
theorem report_main_hash_deterministic_in_inputs (s1 s2 : Session)
    (report_id report_ts : String)
    (hf : s1.uploaded_files = s2.uploaded_files)
    (ha : s1.applicant_name.getD "N/A" = s2.applicant_name.getD "N/A") :
    (create_report s1 report_id report_ts).map (fun r => r.1.report_main_hash) =
    (create_report s2 report_id report_ts).map (fun r => r.1.report_main_hash) := by
  simp [create_report, hf, ha]

/-- Witness for the amended C1: a session with no applicant key and one
with the key set to the default produce the same digest. -/
theorem report_main_hash_deterministic_in_inputs_witness :
    (create_report ⟨[⟨"a.txt", "u1.txt", "h1", "T1", [], none⟩], none⟩ "R1" "T3").map
        (fun r => r.1.report_main_hash) =
    (create_report ⟨[⟨"a.txt", "u1.txt", "h1", "T1", [], none⟩], some "N/A"⟩ "R1" "T3").map
        (fun r => r.1.report_main_hash) :=
  report_main_hash_deterministic_in_inputs
    ⟨[⟨"a.txt", "u1.txt", "h1", "T1", [], none⟩], none⟩
    ⟨[⟨"a.txt", "u1.txt", "h1", "T1", [], none⟩], some "N/A"⟩
    "R1" "T3" rfl rfl

/-- C1 (counterexample): the exact two-artifact scenario of the claim —
`"a.txt"` with `b"hello"` then `"b.txt"` with `b"world"`, same applicant,
same per-file uuids and timestamps, same finalize timestamp — yet two runs
whose only difference is the run's random `report_id` uuid produce
different root digests: the `report_id` entropy is hashed into the
canonical bytes, refuting run-to-run determinism. -/
theorem report_main_hash_differs_across_runs :
    runReport [reqA, reqB] "R1" "T3" ≠ runReport [reqA, reqB] "R2" "T3" := by
  decide

/-- C2 (counterexample): two sessions with the identical single artifact
(`"a.txt"` with `b"hello"`, same uuid and timestamps), differing only in
that one ran the enrichment step (`analyze_file` attached `analysis`
text `"SUM"`), produce different root digests: the `analysis` field is
serialized into the hashed canonical bytes. -/
theorem report_main_hash_changes_with_analysis :
    (create_report (analyze_file (runUploads {} [reqA]) "u1.txt" (some "SUM"))
        "R1" "T3").map (fun r => r.1.report_main_hash) ≠
    (create_report (runUploads {} [reqA]) "R1" "T3").map
        (fun r => r.1.report_main_hash) := by
  decide

/-- Hex digits below 16 decode back to their value. -/
theorem unhex_hexNibble : ∀ n < 16, unhex (hexNibble n) = n := by decide

/-- The escaping is uniquely decodable: the decoder reads back exactly the
character that was escaped, leaving the rest untouched. -/
theorem decodeFirst_escChar (c : Char) (r : List Char) :
    decodeFirst ((escChar c).data ++ r) = some (c, r) := by
  unfold escChar
  split_ifs with h1 h2 h3 h4 h5 h6 h7 h8
  · subst h1; rfl
  · subst h2; rfl
  · subst h3; rfl
  · subst h4; rfl
  · subst h5; rfl
  · subst h6; rfl
  · subst h7; rfl
  · have hd : ("\\u00" ++ String.mk [hexNibble (c.toNat / 16), hexNibble (c.toNat % 16)]).data
        = '\\' :: 'u' :: '0' :: '0' :: hexNibble (c.toNat / 16) ::
            hexNibble (c.toNat % 16) :: [] := rfl
    rw [hd]
    show some (Char.ofNat (unhex (hexNibble (c.toNat / 16)) * 16 +
        unhex (hexNibble (c.toNat % 16))), r) = some (c, r)
    rw [unhex_hexNibble (c.toNat / 16) (by omega), unhex_hexNibble (c.toNat % 16) (by omega),
        show c.toNat / 16 * 16 + c.toNat % 16 = c.toNat by omega, Char.ofNat_toNat]
  · have hd : (String.mk [c]).data = [c] := rfl
    rw [hd, List.singleton_append]
    unfold decodeFirst
    split
    · next heq => rw [List.cons.injEq] at heq; exact absurd heq.1 h2
    · next d r2 heq => rw [List.cons.injEq] at heq; exact absurd heq.1 h2
    · next heq => rw [List.cons.injEq] at heq; rw [heq.1, heq.2]
    · next heq => exact (List.cons_ne_nil c r heq).elim

/-- Folding string concatenation starting from any accumulator prepends it. -/
theorem strFoldl_append (l : List String) :
    ∀ acc : String, l.foldl (· ++ ·) acc = acc ++ l.foldl (· ++ ·) "" := by
  induction l with
  | nil => intro acc; simp [List.foldl_nil]
  | cons x xs ih =>
      intro acc
      rw [List.foldl_cons, List.foldl_cons, ih (acc ++ x), ih ("" ++ x)]
      simp [String.append_assoc]

/-- Joining a cons splits off the head string. -/
theorem strJoin_cons (s : String) (l : List String) :
    String.join (s :: l) = s ++ String.join l := by
  show (s :: l).foldl (· ++ ·) "" = s ++ l.foldl (· ++ ·) ""
  rw [List.foldl_cons, strFoldl_append l ("" ++ s)]
  simp

/-- The character-wise JSON escaping is injective, by decoding. -/
theorem escape_data_inj : ∀ l1 l2 : List Char,
    (String.join (l1.map escChar)).data = (String.join (l2.map escChar)).data →
    l1 = l2 := by
  intro l1
  induction l1 with
  | nil =>
      intro l2 h
      cases l2 with
      | nil => rfl
      | cons c t =>
          exfalso
          rw [List.map_cons, strJoin_cons] at h
          have h2 : ([] : List Char) =
              (escChar c).data ++ (String.join (t.map escChar)).data := h
          have hd := congrArg decodeFirst h2
          rw [decodeFirst_escChar] at hd
          exact Option.noConfusion hd
  | cons c t ih =>
      intro l2 h
      cases l2 with
      | nil =>
          exfalso
          rw [List.map_cons, strJoin_cons] at h
          have h2 : (escChar c).data ++ (String.join (t.map escChar)).data =
              ([] : List Char) := h
          have hd := congrArg decodeFirst h2
          rw [decodeFirst_escChar] at hd
          exact Option.noConfusion hd
      | cons c2 t2 =>
          rw [List.map_cons, List.map_cons, strJoin_cons, strJoin_cons] at h
          have h2 : (escChar c).data ++ (String.join (t.map escChar)).data =
              (escChar c2).data ++ (String.join (t2.map escChar)).data := h
          have hd := congrArg decodeFirst h2
          rw [decodeFirst_escChar, decodeFirst_escChar] at hd
          obtain ⟨hc, ht⟩ := Prod.mk.injEq .. ▸ Option.some.inj hd
          rw [hc, ih t2 ht]

/-- JSON string literals are injective: equal serialized literals come
from equal strings. -/
theorem jsonStr_inj (a b : String) (h : jsonStr a = jsonStr b) : a = b := by
  have hd2 : ('"' :: (String.join (a.data.map escChar)).data) ++ ['"'] =
      ('"' :: (String.join (b.data.map escChar)).data) ++ ['"'] := congrArg String.data h
  have hcan := List.append_cancel_right hd2
  rw [List.cons.injEq] at hcan
  exact String.ext (escape_data_inj a.data b.data hcan.2)

/-- String concatenation concatenates the underlying character lists. -/
theorem strDataAppend (s t : String) : (s ++ t).data = s.data ++ t.data := rfl

/-- Two file records equal except for different `analysis` texts serialize
differently. -/
theorem fileJson_some_some (o st sh t : String) (ps : List PageData)
    (a b : String) (hab : a ≠ b) :
    fileJson ⟨o, st, sh, t, ps, some a⟩ ≠ fileJson ⟨o, st, sh, t, ps, some b⟩ := by
  intro heq
  have hd := congrArg String.data heq
  simp only [fileJson, strDataAppend, List.append_assoc] at hd
  have h1 := List.append_cancel_left hd
  have h2 := List.append_cancel_left h1
  have h3 := List.append_cancel_right h2
  exact hab (jsonStr_inj a b (String.ext h3))

/-- A file record with an `analysis` text serializes differently from the
same record without one (the serializations even have different lengths). -/
theorem fileJson_some_none (o st sh t : String) (ps : List PageData) (a : String) :
    fileJson ⟨o, st, sh, t, ps, some a⟩ ≠ fileJson ⟨o, st, sh, t, ps, none⟩ := by
  intro heq
  have hlen := congrArg String.length heq
  simp only [fileJson, String.length_append] at hlen
  have h1 : ("\"analysis\": " : String).length = 12 := rfl
  have h2 : (", " : String).length = 2 := rfl
  have h3 : ("" : String).length = 0 := rfl
  rw [h1, h2, h3] at hlen
  omega

/-- Any difference in the `analysis` field — absent versus present, or two
different texts — changes the file record's canonical serialization. -/
theorem fileJson_analysis_inj (o st sh t : String) (ps : List PageData) :
    ∀ x y : Option String, x ≠ y →
      fileJson ⟨o, st, sh, t, ps, x⟩ ≠ fileJson ⟨o, st, sh, t, ps, y⟩ := by
  intro x y hne
  cases x with
  | none =>
      cases y with
      | none => exact absurd rfl hne
      | some b => exact fun h => fileJson_some_none o st sh t ps b h.symm
  | some a =>
      cases y with
      | none => exact fileJson_some_none o st sh t ps a
      | some b =>
          exact fileJson_some_some o st sh t ps a b (fun h => hne (h ▸ rfl))

/-- C2 (amended): the enrichment annotation is not outside the hash path —
whenever it is present at `create_report` time it is serialized (first
key) into the hashed canonical bytes: any difference in a file record's
`analysis` field, absent versus present or two different texts, changes
the canonical serialization (proved for all inputs via injectivity of the
JSON escaping), and concretely a pure content change of the enrichment
text also changes the root digest; only an enrichment failure (every
`analyze_file` error path returns before the session is rewritten) leaves
the session, and hence the hash path, unchanged. -/
theorem analysis_hashed_when_present :
    (∀ (sess : Session) (sn : String), analyze_file sess sn none = sess) ∧
    (∀ (o st sh t : String) (ps : List PageData) (x y : Option String), x ≠ y →
      fileJson ⟨o, st, sh, t, ps, x⟩ ≠ fileJson ⟨o, st, sh, t, ps, y⟩) ∧
    (create_report (analyze_file (runUploads {} [reqA]) "u1.txt" (some "SUM"))
        "R1" "T3").map (fun r => r.1.report_main_hash) ≠
      (create_report (analyze_file (runUploads {} [reqA]) "u1.txt" (some "MUS"))
        "R1" "T3").map (fun r => r.1.report_main_hash) := by
  exact ⟨fun _ _ => rfl, fun o st sh t ps => fileJson_analysis_inj o st sh t ps,
    by decide⟩

/-- Witness for the amended C2 at a concrete file record. -/
theorem analysis_hashed_when_present_witness :
    fileJson ⟨"a.txt", "u1.txt", "h1", "T1", [], some "SUM"⟩ ≠
      fileJson ⟨"a.txt", "u1.txt", "h1", "T1", [], none⟩ :=
  analysis_hashed_when_present.2.1 "a.txt" "u1.txt" "h1" "T1" []
    (some "SUM") none (by decide)

/-- C3 (counterexample): the finalize-then-append violation is silently
accepted — after a successful `create_report` the session is reset to the
empty state, a further `upload_file` on that state returns a success
response carrying a fresh one-file ledger (no `LedgerFinalizedError`
exists to be raised), and a second `create_report` returns the generic
no-uploaded-files 400 error rather than an `AlreadyFinalizedError`. -/
theorem post_finalize_append_accepted :
    (create_report (runUploads {} [reqA]) "R1" "T3").map Prod.snd =
      some ⟨[], none⟩ ∧
    (upload_file ⟨[], none⟩ (some "Bob") "b.txt" "u2" "T2" (strUtf8 "world") []).map
      (fun r => r.1.uploaded_files.length) = some 1 ∧
    create_report ⟨[], none⟩ "R2" "T4" = none := by
  refine ⟨by decide, by decide, rfl⟩

/-- C3 (amended): `create_report` pops both session keys, so the session
after a successful finalize is the empty one; on that state a repeated
finalize yields the no-files 400 error (`none`), and a further upload is
accepted as the single first artifact of a new ledger — neither lifecycle
violation raises a dedicated exception. -/
theorem finalize_clears_session (sess : Session) (report_id report_ts : String)
    (hne : sess.uploaded_files ≠ []) :
    (create_report sess report_id report_ts).map Prod.snd = some ⟨[], none⟩ ∧
    (∀ rid2 ts2 : String, create_report (⟨[], none⟩ : Session) rid2 ts2 = none) ∧
    (∀ (app : Option String) (n u t : String) (b : List Nat) (p : List (List Nat)),
      n ≠ "" →
      (upload_file (⟨[], none⟩ : Session) app n u t b p).map
        (fun r => r.1.uploaded_files.length) = some 1) := by
  have he : sess.uploaded_files.isEmpty = false := by
    cases hl : sess.uploaded_files with
    | nil => exact absurd hl hne
    | cons a l => rfl
  refine ⟨by simp [create_report, he], fun _ _ => rfl, ?_⟩
  intro app n u t b p hn
  simp only [upload_file, if_neg hn, Option.map_some]
  split <;> rfl

/-- Witness for the amended C3 at a concrete one-file session. -/
theorem finalize_clears_session_witness :
    (create_report ⟨[⟨"a.txt", "u1.txt", "h1", "T1", [], none⟩], some "Alice"⟩
        "R1" "T3").map Prod.snd = some ⟨[], none⟩ ∧
    (upload_file ⟨[], none⟩ (some "Bob") "b.txt" "u2" "T2" [] []).map
      (fun r => r.1.uploaded_files.length) = some 1 := by
  have h := finalize_clears_session
    ⟨[⟨"a.txt", "u1.txt", "h1", "T1", [], none⟩], some "Alice"⟩ "R1" "T3" (by decide)
  exact ⟨h.1, h.2.2 (some "Bob") "b.txt" "u2" "T2" [] [] (by decide)⟩

/-- Concatenated lists serialize as the serialization of the first part,
a separator, and the serialization of the second part: earlier elements
always serialize before later ones. -/
theorem joinComma_append :
    ∀ l1 : List String, l1 ≠ [] → ∀ l2 : List String, l2 ≠ [] →
      joinComma (l1 ++ l2) = joinComma l1 ++ ", " ++ joinComma l2 := by
  intro l1
  induction l1 with
  | nil => intro h; exact absurd rfl h
  | cons x xs ih =>
      intro _ l2 h2
      cases xs with
      | nil =>
          cases l2 with
          | nil => exact absurd rfl h2
          | cons y ys => rfl
      | cons z zs =>
          have hl : (x :: z :: zs) ++ l2 = x :: ((z :: zs) ++ l2) := rfl
          have hcons : joinComma (x :: ((z :: zs) ++ l2)) =
              x ++ ", " ++ joinComma ((z :: zs) ++ l2) := rfl
          rw [hl, hcons, ih (by simp) l2 h2,
              show joinComma (x :: z :: zs) = x ++ ", " ++ joinComma (z :: zs) from rfl]
          simp [String.append_assoc]

/-- C5: order preservation and order sensitivity.  An upload appends its
file record at the end of the session's list; the canonical serialization
of a concatenated file list keeps the earlier files' JSON strictly before
the later files' JSON (never re-sorting by content); and the concrete
two-artifact ledgers (`hello`/`world`) appended in the two different
orders produce different root digests. -/
theorem upload_order_preserved_and_hashed :
    (∀ (sess : Session) (app : Option String) (n u t : String) (b : List Nat)
        (p : List (List Nat)), n ≠ "" →
      (upload_file sess app n u t b p).map (fun r => r.1.uploaded_files) =
      (upload_file sess app n u t b p).map (fun r => sess.uploaded_files ++ [r.2])) ∧
    (∀ l1 l2 : List FileInfo, l1 ≠ [] → l2 ≠ [] →
      joinComma ((l1 ++ l2).map fileJson) =
        joinComma (l1.map fileJson) ++ ", " ++ joinComma (l2.map fileJson)) ∧
    runReport [reqA, reqB] "R1" "T3" ≠ runReport [reqB, reqA] "R1" "T3" := by
  refine ⟨?_, ?_, by decide⟩
  · intro sess app n u t b p hn
    simp only [upload_file, if_neg hn, Option.map_some]
    split <;> rfl
  · intro l1 l2 h1 h2
    rw [List.map_append]
    exact joinComma_append (l1.map fileJson) (by simpa using h1)
      (l2.map fileJson) (by simpa using h2)

/-- Witness for C5 at a concrete upload. -/
theorem upload_order_preserved_and_hashed_witness :
    (upload_file ⟨[], none⟩ (some "Alice") "a.txt" "u1" "T1" [] []).map
      (fun r => r.1.uploaded_files) =
    (upload_file ⟨[], none⟩ (some "Alice") "a.txt" "u1" "T1" [] []).map
      (fun r => (Session.mk [] none).uploaded_files ++ [r.2]) :=
  upload_order_preserved_and_hashed.1 ⟨[], none⟩ (some "Alice") "a.txt" "u1" "T1"
    [] [] (by decide)

/-- C6: changing only a rendered page's bytes leaves the parent record's
own digest (the hash of the original file bytes) unchanged — it does not
depend on the page byte streams at all — while the ledger's root digest
changes, because the page digest sits inside the parent's serialized
`pages` list. -/
theorem subartifact_changes_root_not_parent :
    (∀ (sess : Session) (app : Option String) (n u t : String) (b : List Nat)
        (p1 p2 : List (List Nat)),
      (upload_file sess app n u t b p1).map (fun r => r.2.sha256_hash) =
      (upload_file sess app n u t b p2).map (fun r => r.2.sha256_hash)) ∧
    runReport [⟨some "Alice", "d.pdf", "u1", "T1", strUtf8 "pdf", [strUtf8 "p1"]⟩]
        "R1" "T3" ≠
      runReport [⟨some "Alice", "d.pdf", "u1", "T1", strUtf8 "pdf", [strUtf8 "p2"]⟩]
        "R1" "T3" ∧
    (upload_file {} (some "Alice") "d.pdf" "u1" "T1" (strUtf8 "pdf") [strUtf8 "p1"]).map
        (fun r => r.2.sha256_hash) =
      (upload_file {} (some "Alice") "d.pdf" "u1" "T1" (strUtf8 "pdf") [strUtf8 "p2"]).map
        (fun r => r.2.sha256_hash) := by
  refine ⟨?_, by decide, by decide⟩
  intro sess app n u t b p1 p2
  by_cases hn : n = ""
  · simp [upload_file, hn]
  · simp only [upload_file, if_neg hn, Option.map_some]
    split <;> rfl

/-- C7 (counterexample): the stored reference is not independent of the
submitter-supplied name — with the same uuid, `"a.txt"` is stored as
`"u1.txt"` but `"a.pdf"` as `"u1.pdf"`: the original name's extension
flows into `stored_filename`. -/
theorem stored_filename_depends_on_original_name :
    (upload_file {} (some "Alice") "a.txt" "u1" "T1" [] []).map
      (fun r => r.2.stored_filename) = some "u1.txt" ∧
    (upload_file {} (some "Alice") "a.pdf" "u1" "T1" [] []).map
      (fun r => r.2.stored_filename) = some "u1.pdf" ∧
    ("u1.txt" : String) ≠ "u1.pdf" := by
  refine ⟨by decide, by decide, by decide⟩

/-- C7 (amended): the stored reference is the random uuid concatenated
with the original name's `splitext` extension — the extension of the
submitter-supplied name flows into it, but nothing else does: names with
equal extensions receive identical stored references for the same uuid. -/
theorem stored_filename_uuid_plus_extension :
    (∀ (sess : Session) (app : Option String) (n u t : String) (b : List Nat)
        (p : List (List Nat)), n ≠ "" →
      (upload_file sess app n u t b p).map (fun r => r.2.stored_filename) =
        some (u ++ splitextExt n)) ∧
    (∀ (sess : Session) (app : Option String) (u t : String) (b : List Nat)
        (p : List (List Nat)) (n1 n2 : String),
      splitextExt n1 = splitextExt n2 → n1 ≠ "" → n2 ≠ "" →
      (upload_file sess app n1 u t b p).map (fun r => r.2.stored_filename) =
      (upload_file sess app n2 u t b p).map (fun r => r.2.stored_filename)) := by
  have key : ∀ (sess : Session) (app : Option String) (n u t : String) (b : List Nat)
      (p : List (List Nat)), n ≠ "" →
      (upload_file sess app n u t b p).map (fun r => r.2.stored_filename) =
        some (u ++ splitextExt n) := by
    intro sess app n u t b p hn
    simp only [upload_file, if_neg hn, Option.map_some]
    split <;> rfl
  refine ⟨key, ?_⟩
  intro sess app u t b p n1 n2 hext h1 h2
  rw [key sess app n1 u t b p h1, key sess app n2 u t b p h2, hext]

/-- Witness for the amended C7 at a concrete upload. -/
theorem stored_filename_uuid_plus_extension_witness :
    (upload_file ⟨[], none⟩ none "b.txt" "u9" "T" [] []).map
      (fun r => r.2.stored_filename) = some ("u9" ++ splitextExt "b.txt") :=
  stored_filename_uuid_plus_extension.1 ⟨[], none⟩ none "b.txt" "u9" "T" [] []
    (by decide)

/-- How one upload changes the stored applicant label: it is set to this
request's (defaulted) `applicant_name` exactly when the stored label is
falsy and the incoming one is non-empty. -/
theorem applyUpload_applicant (sess : Session) (u : UploadReq)
    (hn : u.origFilename ≠ "") :
    (applyUpload sess u).applicant_name =
      if !pyTruthyOpt sess.applicant_name && (u.formApplicant.getD "N/A") != ""
      then some (u.formApplicant.getD "N/A") else sess.applicant_name := by
  simp only [applyUpload, upload_file, if_neg hn]
  split <;> rfl

/-- Once the stored applicant label is a non-empty string, no sequence of
further uploads changes it. -/
theorem runUploads_applicant_stable :
    ∀ (reqs : List UploadReq) (sess : Session) (s : String),
      sess.applicant_name = some s → s ≠ "" →
      (runUploads sess reqs).applicant_name = some s := by
  intro reqs
  induction reqs with
  | nil => intro sess s hs _; exact hs
  | cons u us ih =>
      intro sess s hs hne
      show (runUploads (applyUpload sess u) us).applicant_name = some s
      refine ih (applyUpload sess u) s ?_ hne
      by_cases hn : u.origFilename = ""
      · simpa [applyUpload, upload_file, hn] using hs
      · rw [applyUpload_applicant sess u hn, hs]
        simp [pyTruthyOpt, hne]

/-- Starting with no stored label, a run of uploads leaves the label at
the first non-empty (defaulted) `applicant_name` among the requests. -/
theorem runUploads_applicant_from_none :
    ∀ (reqs : List UploadReq) (sess : Session),
      sess.applicant_name = none →
      (∀ u ∈ reqs, u.origFilename ≠ "") →
      (runUploads sess reqs).applicant_name =
        (reqs.map fun u => u.formApplicant.getD "N/A").find? (fun s => s != "") := by
  intro reqs
  induction reqs with
  | nil => intro sess hs _; exact hs
  | cons u us ih =>
      intro sess hs hall
      have hn : u.origFilename ≠ "" := hall u (List.mem_cons_self u us)
      have hstep := applyUpload_applicant sess u hn
      rw [hs] at hstep
      show (runUploads (applyUpload sess u) us).applicant_name = _
      by_cases hname : (u.formApplicant.getD "N/A") != ""
      · have happ : (applyUpload sess u).applicant_name =
            some (u.formApplicant.getD "N/A") := by
          rw [hstep]; simp [pyTruthyOpt, hname]
        rw [runUploads_applicant_stable us _ _ happ (by simpa using hname)]
        simp only [List.map_cons, List.find?, hname]
      · have hfalse : ((u.formApplicant.getD "N/A") != "") = false := by
          rw [Bool.not_eq_true] at hname; exact hname
        have happ : (applyUpload sess u).applicant_name = none := by
          rw [hstep, hfalse]; simp
        rw [ih _ happ (fun v hv => hall v (List.mem_cons_of_mem u hv))]
        simp only [List.map_cons, List.find?, hfalse]

/-- C10: the applicant label is write-once per session — a full upload
sequence leaves the label at the first non-empty (defaulted)
`applicant_name` it receives; a stored non-empty label survives any later
upload, even one carrying a different name; and the finalized record
carries exactly the stored label (defaulted when never set). -/
theorem applicant_label_write_once :
    (∀ reqs : List UploadReq, (∀ u ∈ reqs, u.origFilename ≠ "") →
      (runUploads {} reqs).applicant_name =
        (reqs.map fun u => u.formApplicant.getD "N/A").find? (fun s => s != "")) ∧
    (∀ (sess : Session) (u : UploadReq) (s : String),
      sess.applicant_name = some s → s ≠ "" →
      (applyUpload sess u).applicant_name = some s) ∧
    (∀ (sess : Session) (report_id report_ts : String), sess.uploaded_files ≠ [] →
      (create_report sess report_id report_ts).map
          (fun r => r.1.proof.applicant_name) =
        some (sess.applicant_name.getD "N/A")) := by
  refine ⟨fun reqs h => runUploads_applicant_from_none reqs {} rfl h, ?_, ?_⟩
  · intro sess u s hs hne
    exact runUploads_applicant_stable [u] sess s hs hne
  · intro sess report_id report_ts hne
    have he : sess.uploaded_files.isEmpty = false := by
      cases hl : sess.uploaded_files with
      | nil => exact absurd hl hne
      | cons a l => rfl
    simp [create_report, he]

/-- Witness for C10: two uploads with different applicant names leave the
label at the first one. -/
theorem applicant_label_write_once_witness :
    (runUploads {} [reqA, ⟨some "Bob", "b2.txt", "u3", "T4", strUtf8 "x", []⟩]).applicant_name
      = some "Alice" := by
  have h := applicant_label_write_once.1
    [reqA, ⟨some "Bob", "b2.txt", "u3", "T4", strUtf8 "x", []⟩] (by decide)
  rw [h]
  decide

end App
